import Mathlib

/-!
# Verification of the Reddit media paginator (`src/script.js`)

Shallow embedding of the fetch/classify/paginate core of `script.js`
(`fetchPosts`, lines 30–140) and proofs of the specification's claims
about it.

Modelling conventions:
* JS strings/undefined are modelled with `Option String`; the JS
  truthiness of a string (`undefined`, `null` and `""` are falsy) is
  made explicit via `jsTruthy` / `jsOrStr`.
* A thrown JS exception (the `throw` on an error field, or the
  `TypeError` from `post.url.toLowerCase()` when `url` is absent) is
  modelled with `Except Unit`; the surrounding `try/catch` of
  `fetchPosts` converts an error into the empty result.
* Network responses are an oracle `fetchR : Nat → Except Unit Page`
  giving the response to the k-th page request of the run; the
  `window.confirm` stall prompt is a boolean parameter.
* The run additionally produces a trace of observable events
  (page fetches with their ordinal, sleeps, the stall prompt) used to
  state budget / ordering / rate-limit claims.
-/

/-- `source` object inside a preview image (`{url: ...}`); the `url`
field may be absent. -/
structure Src where
  url : Option String
deriving DecidableEq, Repr

/-- `variants` object of a preview image; only the `gif` variant is
read by the code (`post.preview?.images?.[0]?.variants?.gif?.source?.url`). -/
structure Variants where
  gif : Option Src
deriving DecidableEq, Repr

/-- one element of `preview.images`. -/
structure Img where
  source : Option Src
  variants : Option Variants
deriving DecidableEq, Repr

/-- the optional `preview` structure of a post; `images` itself may be
absent. -/
structure Preview where
  images : Option (List Img)
deriving DecidableEq, Repr

/-- a listing item (`child.data` of the listing response).  `url` is
`Option String` because the code reads it without optional chaining:
an absent `url` makes `post.url.toLowerCase()` throw. -/
structure Post where
  url : Option String
  permalink : String
  title : String
  preview : Option Preview
deriving DecidableEq, Repr

/-- one page of the listing response: the items
(`data.data.children[i].data`) and the next cursor (`data.data.after`,
`none` models `null`/absent). -/
structure Page where
  posts : List Post
  after : Option String
deriving DecidableEq, Repr

deriving instance DecidableEq for Except

/-- JS truthiness of an optional string: `undefined`/`null` and `""`
are falsy. -/
def jsTruthy : Option String → Bool
  | none => false
  | some s => s ≠ ""

/-- JS `a || b` for an optional string `a` and a string default `b`:
yields `b` when `a` is absent or empty. -/
def jsOrStr : Option String → String → String
  | none, b => b
  | some s, b => if s = "" then b else s

/-- `String.toLowerCase` character by character (kernel-computable
form of `String.toLower`). -/
def toLowerStr (s : String) : String :=
  ⟨s.data.map Char.toLower⟩

/-- `split('?')[0]`: the prefix of the string before the first `?`
(the whole string when it has no `?`). -/
def beforeQuery (s : String) : String :=
  ⟨s.data.takeWhile (fun c => c ≠ '?')⟩

/-- `String.endsWith` on the underlying character lists. -/
def strEndsWith (s t : String) : Bool :=
  t.data.isSuffixOf s.data

/-- `url.toLowerCase().split('?')[0]` — lowercase, then everything
before the first `?` (lines 64 / 83). -/
def normalizeUrl (s : String) : String :=
  beforeQuery (toLowerStr s)

/-- the extension check of lines 67–72 / 84–88: the normalized URL ends
with `.gif`, `.jpg`, `.jpeg` or `.png`. -/
def isMediaUrl (s : String) : Bool :=
  strEndsWith s ".gif" || strEndsWith s ".jpg" || strEndsWith s ".jpeg" ||
    strEndsWith s ".png"

/-- `post.preview?.images?.[0]?.source?.url` (line 80). -/
def previewChain1 (p : Post) : Option String :=
  ((((p.preview.bind Preview.images).bind List.head?).bind Img.source).bind Src.url)

/-- `post.preview?.images?.[0]?.variants?.gif?.source?.url` (line 81). -/
def previewChain2 (p : Post) : Option String :=
  (((((p.preview.bind Preview.images).bind List.head?).bind Img.variants).bind
    Variants.gif).bind Src.url)

/-- the fallback URL of lines 80–82:
`chain1 || chain2 || ''` with JS truthiness. -/
def previewUrl (p : Post) : String :=
  jsOrStr (previewChain1 p) (jsOrStr (previewChain2 p) "")

/-- per-item classification, the body of lines 62–99 without the
limit-dependent routing: `.error ()` models the `TypeError` thrown by
`post.url.toLowerCase()` when `url` is absent; otherwise
`(true, p')` means media with display item `p'` (whose `url` is the
un-normalized fallback URL when the preview matched), `(false, p)`
means non-media.  In the source this logic is inlined in the
per-post loop of `fetchPosts`. -/
def classify (p : Post) : Except Unit (Bool × Post) :=
  match p.url with
  | none => .error ()
  | some u =>
    if isMediaUrl (normalizeUrl u) then .ok (true, p)
    else
      let pu := previewUrl p
      if isMediaUrl (normalizeUrl pu) then .ok (true, { p with url := some pu })
      else .ok (false, p)

/-- the routing of one classified item (lines 73–77 / 90–98): a media
item is appended to `media` while `media.length < limit` and to
`nonMedia` otherwise (the "excess media" branch); a non-media item
goes to `nonMedia`.  `p` is the original item, `p'` the classified
display item. -/
def routeStep (limit : Nat) (media nonMedia : List Post) (p p' : Post)
    (isM : Bool) : List Post × List Post :=
  if isM then
    if media.length < limit then (media ++ [p'], nonMedia)
    else (media, nonMedia ++ [p])
  else (media, nonMedia ++ [p])

/-- the per-page item loop (lines 62–106): classify items in order,
route media to `media` while `media.length < limit` and to `nonMedia`
otherwise; as soon as `media` holds `limit` items, bulk-append the
remaining items of the page verbatim and stop (lines 101–105). -/
def processPosts (limit : Nat) : List Post → List Post → List Post →
    Except Unit (List Post × List Post)
  | media, nonMedia, [] => .ok (media, nonMedia)
  | media, nonMedia, p :: rest =>
    match classify p with
    | .error e => .error e
    | .ok (isM, p') =>
      let st := routeStep limit media nonMedia p p' isM
      if limit ≤ st.1.length then .ok (st.1, st.2 ++ rest)
      else processPosts limit st.1 st.2 rest

/-- `maxRequests` (line 40): `limit === 1 ? 3 : Math.max(3, limit * 3)`. -/
def maxRequests (limit : Nat) : Nat :=
  if limit = 1 then 3 else max 3 (limit * 3)

/-- `batchSize` (line 41): `Math.min(limit + 5, 100)`. -/
def batchSize (limit : Nat) : Nat :=
  min (limit + 5) 100

/-- observable events of a run: the k-th page fetch, the 1000 ms
rate-limit sleep (line 131), and the stall prompt with its answer
(lines 114–122). -/
inductive Ev where
  | fetch (k : Nat)
  | sleep
  | stall (answer : Bool)
deriving DecidableEq, Repr

/-- the `while` loop of `fetchPosts` (lines 48–132).  State: current
`media` and `nonMedia` lists, current cursor `after`, `rc` =
`requestCount`, `k` = ordinal of the next page fetch (used to index
the response oracle `fetchR`).  `fuel` dominates the iteration count;
with `fuel = maxR + 1` and `rc = 0` the fuel never runs out.  Returns
`none` when a JS exception escapes the loop (error field on a page
response, or classification `TypeError`), together with the event
trace. -/
def loopF (limit : Nat) (confirm : Bool) (fetchR : Nat → Except Unit Page)
    (maxR : Nat) :
    Nat → List Post → List Post → Option String → Nat → Nat →
    Option (List Post × List Post) × List Ev
  | 0, media, nonMedia, _, _, _ => (some (media, nonMedia), [])
  | fuel + 1, media, nonMedia, after, rc, k =>
    if media.length < limit ∧ rc < maxR then
      match fetchR k with
      | .error _ => (none, [Ev.fetch k])
      | .ok page =>
        if page.posts.isEmpty then (some (media, nonMedia), [Ev.fetch k])
        else
          match processPosts limit media nonMedia page.posts with
          | .error _ => (none, [Ev.fetch k])
          | .ok (media', nonMedia') =>
            if limit ≤ media'.length then (some (media', nonMedia'), [Ev.fetch k])
            else
              let stalled : Bool := limit == 1 && rc == 2 && media'.length == 0
              let stallEvs : List Ev := if stalled then [Ev.stall confirm] else []
              if stalled && !confirm then
                (some (media', nonMedia'), Ev.fetch k :: stallEvs)
              else if jsTruthy page.after then
                let r := loopF limit confirm fetchR maxR fuel media' nonMedia'
                  page.after (rc + 1) (k + 1)
                (r.1, Ev.fetch k :: (stallEvs ++ Ev.sleep :: r.2))
              else
                (some (media', nonMedia'), Ev.fetch k :: stallEvs)
    else
      (some (media, nonMedia), [])

/-- `fetchPosts` (lines 30–140) after a successful token exchange: run
the loop from the empty state; the surrounding `catch` (lines 136–139)
turns an escaped exception into the empty result `([], [])`. -/
def fetchPosts (limit : Nat) (confirm : Bool) (fetchR : Nat → Except Unit Page) :
    (List Post × List Post) × List Ev :=
  match loopF limit confirm fetchR (maxRequests limit) (maxRequests limit + 1)
      [] [] none 0 0 with
  | (none, tr) => (([], []), tr)
  | (some r, tr) => (r, tr)

/-- ordinals of the page fetches recorded in a trace, in trace order. -/
def fetchIdxs (tr : List Ev) : List Nat :=
  tr.filterMap fun e => match e with | Ev.fetch k => some k | _ => none

/-- number of page fetches issued in a run. -/
def numFetches (tr : List Ev) : Nat :=
  (fetchIdxs tr).length

/-- items delivered by the responses to fetches `k, k+1, …, k+m-1`
(error responses deliver nothing). -/
def deliveredRange (fetchR : Nat → Except Unit Page) (k m : Nat) : List Post :=
  (List.range' k m).flatMap fun j =>
    match fetchR j with
    | .ok pg => pg.posts
    | .error _ => []

/-! ## Concrete sample data -/

/-- a non-media item: `.html` primary URL, no preview. -/
def pHtml : Post := ⟨some "https://x.com/a.html", "pl", "t", none⟩

/-- a media item by primary URL. -/
def pJpg : Post := ⟨some "https://x.com/a.jpg", "pl", "t", none⟩

/-- an item whose `url` field is absent entirely. -/
def pNoUrl : Post := ⟨none, "pl", "t", none⟩

/-- the spec's fallback scenario item: non-media primary URL, preview
source URL `https://y.com/b.png?w=1`. -/
def pPrev : Post :=
  ⟨some "https://x.com/a.html", "pl", "t",
    some ⟨some [⟨some ⟨some "https://y.com/b.png?w=1"⟩, none⟩]⟩⟩

/-- an item whose first preview image has a present-but-empty source
URL and a gif variant URL. -/
def pEmptySrc : Post :=
  ⟨some "u", "pl", "t",
    some ⟨some [⟨some ⟨some ""⟩, some ⟨some ⟨some "https://g.com/g.gif"⟩⟩⟩]⟩⟩

/-- response oracle: first page delivers one non-media item with a next
cursor, the second page request fails. -/
def errFetch : Nat → Except Unit Page :=
  fun k => if k = 0 then .ok ⟨[pHtml], some "a"⟩ else .error ()

/-- response oracle: every page delivers one non-media item and a next
cursor. -/
def liveFetch : Nat → Except Unit Page :=
  fun _ => .ok ⟨[pHtml], some "a"⟩

/-- response oracle: a single page whose second item is media, with no
next cursor. -/
def mixFetch : Nat → Except Unit Page :=
  fun _ => .ok ⟨[pHtml, pJpg, pHtml], none⟩

/-! ## Trace helpers -/

@[simp] theorem fetchIdxs_nil : fetchIdxs [] = [] := rfl

@[simp] theorem fetchIdxs_cons_fetch (k : Nat) (tr : List Ev) :
    fetchIdxs (Ev.fetch k :: tr) = k :: fetchIdxs tr := rfl

@[simp] theorem fetchIdxs_cons_sleep (tr : List Ev) :
    fetchIdxs (Ev.sleep :: tr) = fetchIdxs tr := rfl

@[simp] theorem fetchIdxs_cons_stall (b : Bool) (tr : List Ev) :
    fetchIdxs (Ev.stall b :: tr) = fetchIdxs tr := rfl

@[simp] theorem fetchIdxs_append (l₁ l₂ : List Ev) :
    fetchIdxs (l₁ ++ l₂) = fetchIdxs l₁ ++ fetchIdxs l₂ :=
  List.filterMap_append l₁ l₂ _

theorem fetch_mem_iff_mem_fetchIdxs (tr : List Ev) (i : Nat) :
    Ev.fetch i ∈ tr ↔ i ∈ fetchIdxs tr := by
  induction tr with
  | nil => simp
  | cons e tl ih =>
    cases e with
    | fetch k => simp [ih, List.mem_cons]
    | sleep => simpa using ih.trans (by simp)
    | stall b => simpa using ih.trans (by simp)

/-- the trace of `fetchPosts` is the trace of its loop. -/
theorem fetchPosts_trace (limit : Nat) (confirm : Bool)
    (fetchR : Nat → Except Unit Page) :
    (fetchPosts limit confirm fetchR).2 =
      (loopF limit confirm fetchR (maxRequests limit) (maxRequests limit + 1)
        [] [] none 0 0).2 := by
  unfold fetchPosts
  rcases h : loopF limit confirm fetchR (maxRequests limit)
    (maxRequests limit + 1) [] [] none 0 0 with ⟨o, tr⟩
  cases o <;> simp

/-- when the loop escapes with an exception, `fetchPosts` returns the
empty result (the `catch` of lines 136–139). -/
theorem fetchPosts_result_of_none (limit : Nat) (confirm : Bool)
    (fetchR : Nat → Except Unit Page)
    (h : (loopF limit confirm fetchR (maxRequests limit) (maxRequests limit + 1)
      [] [] none 0 0).1 = none) :
    (fetchPosts limit confirm fetchR).1 = ([], []) := by
  unfold fetchPosts
  rcases hl : loopF limit confirm fetchR (maxRequests limit)
    (maxRequests limit + 1) [] [] none 0 0 with ⟨o, tr⟩
  rw [hl] at h
  cases o with
  | none => simp
  | some r => simp at h

/-! ## Classifier claims -/

/-- C2 (counterexample): an item whose `url` field is absent makes the
classification throw (`post.url.toLowerCase()` raises a `TypeError`),
so classification is not exception-free for missing `url`. -/
theorem c2_counterexample : classify pNoUrl = Except.error () := rfl

/-- C2 (amended): classification never raises when the `url` field is
present (even when empty, and regardless of a missing `preview`), but
a missing `url` field raises — absent `url` does not behave like the
empty string. -/
theorem c2_classify_total_iff_url_present (p : Post) :
    (p.url.isSome = true → ∃ r, classify p = Except.ok r) ∧
    (p.url = none → classify p = Except.error ()) := by
  rcases p with ⟨u, pl, t, pv⟩
  cases u with
  | none => exact ⟨fun h => by simp at h, fun _ => rfl⟩
  | some s =>
    refine ⟨fun _ => ?_, fun h => by simp at h⟩
    simp only [classify]
    split
    · exact ⟨_, rfl⟩
    · split
      · exact ⟨_, rfl⟩
      · exact ⟨_, rfl⟩

/-- C2 (witness): the amended theorem applied to `pHtml` (url present,
no preview): classification succeeds. -/
theorem c2_witness : ∃ r, classify pHtml = Except.ok r :=
  (c2_classify_total_iff_url_present pHtml).1 (by decide)

/-- C8: an item whose primary URL fails the extension check but whose
normalized fallback URL matches is classified media with `url`
overwritten by the un-normalized fallback URL. -/
theorem c8_preview_match_overwrites_url (p : Post) (u : String)
    (hu : p.url = some u)
    (h1 : isMediaUrl (normalizeUrl u) = false)
    (h2 : isMediaUrl (normalizeUrl (previewUrl p)) = true) :
    classify p = Except.ok (true, { p with url := some (previewUrl p) }) := by
  simp only [classify, hu, h1, h2]
  simp

/-- C8 (witness): the spec's scenario item
`{url: "https://x.com/a.html", preview: …"https://y.com/b.png?w=1"}`
is media with the query-preserving fallback URL. -/
theorem c8_witness :
    classify pPrev = Except.ok (true, { pPrev with url := some (previewUrl pPrev) }) :=
  c8_preview_match_overwrites_url pPrev "https://x.com/a.html" rfl (by decide)
    (by decide)

/-- C10: a first preview image whose source URL is present but empty is
treated exactly like an absent source URL: resolution falls through to
the gif variant URL, and to the empty string when that is also absent
or empty. -/
theorem c10_empty_preview_source_like_absent (p : Post)
    (h : previewChain1 p = some "" ∨ previewChain1 p = none) :
    previewUrl p = jsOrStr (previewChain2 p) "" ∧
    ((previewChain2 p = some "" ∨ previewChain2 p = none) → previewUrl p = "") := by
  have h1 : previewUrl p = jsOrStr (previewChain2 p) "" := by
    rcases h with h | h <;> simp [previewUrl, jsOrStr, h]
  refine ⟨h1, fun h2 => ?_⟩
  rcases h2 with h2 | h2 <;> simp [h1, jsOrStr, h2]

/-- C10 (witness): on `pEmptySrc` (empty source URL, gif variant
present) resolution yields the gif variant URL. -/
theorem c10_witness :
    previewUrl pEmptySrc = jsOrStr (previewChain2 pEmptySrc) "" ∧
    ((previewChain2 pEmptySrc = some "" ∨ previewChain2 pEmptySrc = none) →
      previewUrl pEmptySrc = "") :=
  c10_empty_preview_source_like_absent pEmptySrc (Or.inl rfl)

/-! ## Routing and per-page lemmas -/

theorem routeStep_cases (limit : Nat) (media nonMedia : List Post)
    (p p' : Post) (isM : Bool) :
    (routeStep limit media nonMedia p p' isM = (media ++ [p'], nonMedia) ∧
      media.length < limit ∧ isM = true) ∨
    routeStep limit media nonMedia p p' isM = (media, nonMedia ++ [p]) := by
  unfold routeStep
  cases isM with
  | false => simp
  | true =>
    by_cases h : media.length < limit
    · exact Or.inl ⟨by simp [h], h, rfl⟩
    · exact Or.inr (by simp [h])

theorem routeStep_full (limit : Nat) (media nonMedia : List Post)
    (p p' : Post) (isM : Bool) (h : limit ≤ media.length) :
    routeStep limit media nonMedia p p' isM = (media, nonMedia ++ [p]) := by
  unfold routeStep
  cases isM <;> simp [Nat.not_lt.mpr h]

theorem routeStep_media_le (limit : Nat) (media nonMedia : List Post)
    (p p' : Post) (isM : Bool) (h : media.length ≤ limit) :
    (routeStep limit media nonMedia p p' isM).1.length ≤ limit := by
  rcases routeStep_cases limit media nonMedia p p' isM with ⟨he, hlt, _⟩ | he <;>
    rw [he]
  · simpa using hlt
  · exact h

theorem processPosts_media_le (limit : Nat) :
    ∀ (posts media nonMedia M N : List Post),
    media.length ≤ limit →
    processPosts limit media nonMedia posts = Except.ok (M, N) →
    M.length ≤ limit := by
  intro posts
  induction posts with
  | nil =>
    intro media nonMedia M N hle h
    simp only [processPosts] at h
    cases h
    exact hle
  | cons p rest ih =>
    intro media nonMedia M N hle h
    simp only [processPosts] at h
    cases hc : classify p with
    | error e => rw [hc] at h; cases h
    | ok v =>
      obtain ⟨isM, p'⟩ := v
      rw [hc] at h
      dsimp only at h
      have hst := routeStep_media_le limit media nonMedia p p' isM hle
      split at h
      · cases h
        exact hst
      · exact ih _ _ _ _ hst h

theorem loopF_media_le (limit : Nat) (confirm : Bool)
    (fetchR : Nat → Except Unit Page) (maxR : Nat) :
    ∀ (fuel : Nat) (media nonMedia : List Post) (after : Option String)
      (rc k : Nat) (M N : List Post) (tr : List Ev),
    media.length ≤ limit →
    loopF limit confirm fetchR maxR fuel media nonMedia after rc k =
      (some (M, N), tr) →
    M.length ≤ limit := by
  intro fuel
  induction fuel with
  | zero =>
    intro media nonMedia after rc k M N tr hle h
    simp only [loopF] at h
    cases h
    exact hle
  | succ fuel ih =>
    intro media nonMedia after rc k M N tr hle h
    simp only [loopF] at h
    split at h
    · split at h
      · simp at h
      · rename_i page hf
        split at h
        · cases h; exact hle
        · split at h
          · simp at h
          · rename_i media' nonMedia' hp
            have hle' : media'.length ≤ limit :=
              processPosts_media_le limit page.posts media nonMedia media'
                nonMedia' hle hp
            split at h
            · cases h; exact hle'
            · split at h
              · cases h; exact hle'
              · split at h
                · injection h with h1 h2
                  exact ih media' nonMedia' page.after (rc + 1) (k + 1) M N
                    (loopF limit confirm fetchR maxR fuel media' nonMedia'
                      page.after (rc + 1) (k + 1)).2 hle' (Prod.ext h1 rfl)
                · cases h; exact hle'
    · cases h; exact hle

/-- C4: at the end of every run the media list never exceeds the
requested limit, and a media-classified item arriving while the media
list is already full is appended to the non-media list instead (with
the rest of the page bulk-appended after it, since the limit check
then stops the page). -/
theorem c4_media_never_exceeds_limit (limit : Nat) (confirm : Bool)
    (fetchR : Nat → Except Unit Page) :
    ((fetchPosts limit confirm fetchR).1.1).length ≤ limit ∧
    (∀ (media nonMedia : List Post) (p : Post) (rest : List Post)
      (isM : Bool) (p' : Post),
      limit ≤ media.length →
      classify p = Except.ok (isM, p') →
      processPosts limit media nonMedia (p :: rest) =
        Except.ok (media, (nonMedia ++ [p]) ++ rest)) := by
  constructor
  · rcases hl : loopF limit confirm fetchR (maxRequests limit)
      (maxRequests limit + 1) [] [] none 0 0 with ⟨o, tr⟩
    cases o with
    | none => simp [fetchPosts, hl]
    | some r =>
      obtain ⟨M, N⟩ := r
      have hb := loopF_media_le limit confirm fetchR (maxRequests limit)
        (maxRequests limit + 1) [] [] none 0 0 M N tr (by simp) hl
      simpa [fetchPosts, hl] using hb
  · intro media nonMedia p rest isM p' hfull hc
    simp only [processPosts, hc]
    rw [routeStep_full limit media nonMedia p p' isM hfull]
    simp [hfull]

/-- C4 (witness): with limit 1 and the media list already full, a
media item (`pJpg`) is routed to the non-media list. -/
theorem c4_witness :
    processPosts 1 [pJpg] [] (pJpg :: [pHtml]) =
      Except.ok ([pJpg], ([] ++ [pJpg]) ++ [pHtml]) :=
  (c4_media_never_exceeds_limit 1 true liveFetch).2 [pJpg] [] pJpg [pHtml] true
    pJpg (by decide) (by decide)

/-- the page fetches of a run are issued with consecutive ordinals
`k, k+1, …` and their number never exceeds the remaining budget
`maxR - rc`. -/
theorem loopF_fetchIdxs (limit : Nat) (confirm : Bool)
    (fetchR : Nat → Except Unit Page) (maxR : Nat) :
    ∀ (fuel : Nat) (media nonMedia : List Post) (after : Option String)
      (rc k : Nat),
    ∃ m, fetchIdxs (loopF limit confirm fetchR maxR fuel media nonMedia
        after rc k).2 = List.range' k m ∧ m ≤ maxR - rc := by
  intro fuel
  induction fuel with
  | zero =>
    intro media nonMedia after rc k
    exact ⟨0, by simp [loopF], Nat.zero_le _⟩
  | succ fuel ih =>
    intro media nonMedia after rc k
    simp only [loopF]
    split
    · rename_i hcond
      obtain ⟨hml, hrc⟩ := hcond
      split
      · exact ⟨1, by simp, by omega⟩
      · rename_i page hf
        split
        · exact ⟨1, by simp, by omega⟩
        · split
          · exact ⟨1, by simp, by omega⟩
          · rename_i media' nonMedia' hp
            split
            · exact ⟨1, by simp, by omega⟩
            · split
              · refine ⟨1, ?_, by omega⟩
                split <;> simp
              · split
                · obtain ⟨m, hm, hmle⟩ := ih media' nonMedia' page.after
                    (rc + 1) (k + 1)
                  refine ⟨m + 1, ?_, by omega⟩
                  have : fetchIdxs (Ev.fetch k ::
                      ((if (limit == 1 && rc == 2 && media'.length == 0) = true
                        then [Ev.stall confirm] else []) ++
                        Ev.sleep :: (loopF limit confirm fetchR maxR fuel media'
                          nonMedia' page.after (rc + 1) (k + 1)).2)) =
                      k :: fetchIdxs (loopF limit confirm fetchR maxR fuel
                        media' nonMedia' page.after (rc + 1) (k + 1)).2 := by
                    split <;> simp
                  rw [this, hm, List.range'_succ]
                · refine ⟨1, ?_, by omega⟩
                  split <;> simp
    · exact ⟨0, by simp, Nat.zero_le _⟩

theorem loopF_fetch_ge (limit : Nat) (confirm : Bool)
    (fetchR : Nat → Except Unit Page) (maxR fuel : Nat)
    (media nonMedia : List Post) (after : Option String) (rc k i : Nat)
    (hi : Ev.fetch i ∈ (loopF limit confirm fetchR maxR fuel media nonMedia
      after rc k).2) :
    k ≤ i := by
  obtain ⟨m, hm, _⟩ := loopF_fetchIdxs limit confirm fetchR maxR fuel media
    nonMedia after rc k
  rw [fetch_mem_iff_mem_fetchIdxs, hm] at hi
  exact (List.mem_range'_1.mp hi).1

theorem fetch_mem_fetch_stall (j k : Nat) (c b : Bool)
    (h : Ev.fetch j ∈ Ev.fetch k :: (if c = true then [Ev.stall b] else [])) :
    j = k := by
  rcases List.mem_cons.mp h with h | h
  · simpa using h
  · split at h <;> simp at h

theorem fetch_mem_fetch_stall_sleep (j k : Nat) (c b : Bool) (tl : List Ev)
    (h : Ev.fetch j ∈ Ev.fetch k ::
      ((if c = true then [Ev.stall b] else []) ++ Ev.sleep :: tl)) :
    j = k ∨ Ev.fetch j ∈ tl := by
  rcases List.mem_cons.mp h with h | h
  · left; simpa using h
  · right
    rcases List.mem_append.mp h with h | h
    · split at h <;> simp at h
    · rcases List.mem_cons.mp h with h | h
      · simp at h
      · exact h

/-- once an issued page fetch returns an error, the loop result is the
escaped exception (`none`) and no later fetch is issued (no retry, no
further page). -/
theorem loopF_error_stops (limit : Nat) (confirm : Bool)
    (fetchR : Nat → Except Unit Page) (maxR : Nat) :
    ∀ (fuel : Nat) (media nonMedia : List Post) (after : Option String)
      (rc k j : Nat) (res : Option (List Post × List Post)) (tr : List Ev),
    loopF limit confirm fetchR maxR fuel media nonMedia after rc k = (res, tr) →
    Ev.fetch j ∈ tr →
    fetchR j = Except.error () →
    res = none ∧ ∀ i, Ev.fetch i ∈ tr → i ≤ j := by
  intro fuel
  induction fuel with
  | zero =>
    intro media nonMedia after rc k j res tr h hj he
    simp only [loopF] at h
    cases h
    simp at hj
  | succ fuel ih =>
    intro media nonMedia after rc k j res tr h hj he
    simp only [loopF] at h
    split at h
    · split at h
      · cases h
        simp at hj
        subst hj
        exact ⟨rfl, fun i hi => by simp at hi; omega⟩
      · rename_i page hf
        split at h
        · cases h
          simp at hj
          subst hj
          rw [hf] at he
          cases he
        · split at h
          · cases h
            refine ⟨rfl, fun i hi => ?_⟩
            simp at hi hj
            omega
          · rename_i media' nonMedia' hp
            split at h
            · cases h
              simp at hj
              subst hj
              rw [hf] at he
              cases he
            · split at h
              · cases h
                have hjk := fetch_mem_fetch_stall j k _ confirm hj
                subst hjk
                rw [hf] at he
                cases he
              · split at h
                · cases h
                  rcases fetch_mem_fetch_stall_sleep j k _ confirm _ hj with
                    hjk | hjr
                  · subst hjk
                    rw [hf] at he
                    cases he
                  · obtain ⟨h1, h2⟩ := ih media' nonMedia' page.after (rc + 1)
                      (k + 1) j _ _ rfl hjr he
                    refine ⟨h1, fun i hi => ?_⟩
                    rcases fetch_mem_fetch_stall_sleep i k _ confirm _ hi with
                      hik | hir
                    · have hge := loopF_fetch_ge limit confirm fetchR maxR fuel
                        media' nonMedia' page.after (rc + 1) (k + 1) j hjr
                      omega
                    · exact h2 i hir
                · cases h
                  have hjk := fetch_mem_fetch_stall j k _ confirm hj
                  subst hjk
                  rw [hf] at he
                  cases he
    · cases h
      simp at hj

/-! ## Budget and error claims -/

/-- C6: the fetch ordinals of any run form the increasing sequence
`0, 1, …, m-1` (the requests-issued counter is monotonically
non-decreasing) and the number of page fetches `m` never exceeds the
computed budget `maxRequests limit` — in particular it also never
exceeds it on the `limit = 1` stall-override path. -/
theorem c6_requests_monotone_and_bounded (limit : Nat) (confirm : Bool)
    (fetchR : Nat → Except Unit Page) :
    fetchIdxs (fetchPosts limit confirm fetchR).2 =
      List.range (numFetches (fetchPosts limit confirm fetchR).2) ∧
    numFetches (fetchPosts limit confirm fetchR).2 ≤ maxRequests limit := by
  obtain ⟨m, hm, hle⟩ := loopF_fetchIdxs limit confirm fetchR
    (maxRequests limit) (maxRequests limit + 1) [] [] none 0 0
  rw [numFetches, fetchPosts_trace limit confirm fetchR, hm,
    List.length_range', List.range_eq_range']
  exact ⟨rfl, by omega⟩

/-- C3 (counterexample): limit 1, every page delivers a non-media item
and a live cursor, the stall prompt fires and the operator approves —
yet the run still issues exactly 3 = B fetches and never proceeds past
the budget. -/
theorem c3_counterexample :
    (fetchPosts 1 true liveFetch).1.1 = [] ∧
    Ev.stall true ∈ (fetchPosts 1 true liveFetch).2 ∧
    jsTruthy (Page.after ⟨[pHtml], some "a"⟩) = true ∧
    numFetches (fetchPosts 1 true liveFetch).2 = 3 := by decide

/-- C3 (amended): for `limit = 1` the loop never issues more than 3
page fetches, whatever the stall callback answers — approving the
stall prompt does not extend the run beyond the budget, because
`requestCount` reaches `maxRequests` immediately afterwards. -/
theorem c3_limit_one_never_past_budget (confirm : Bool)
    (fetchR : Nat → Except Unit Page) :
    numFetches (fetchPosts 1 confirm fetchR).2 ≤ 3 := by
  obtain ⟨m, hm, hle⟩ := loopF_fetchIdxs 1 confirm fetchR (maxRequests 1)
    (maxRequests 1 + 1) [] [] none 0 0
  rw [numFetches, fetchPosts_trace 1 confirm fetchR, hm, List.length_range']
  have h3 : maxRequests 1 = 3 := rfl
  omega

/-- C1 (counterexample): page 0 delivers one non-media item (so the
accumulated non-media list before the failure is `[pHtml]`), page 1
fails — yet the run returns both lists empty: the accumulated items
are discarded, not returned. -/
theorem c1_counterexample :
    (fetchPosts 2 true errFetch).1 = ([], []) ∧
    processPosts 2 [] [] [pHtml] = Except.ok ([], [pHtml]) ∧
    errFetch 1 = Except.error () := by decide

/-- C1 (amended): when an issued page fetch fails, the run terminates
immediately — the failed page is not retried and no further fetch is
issued (every issued fetch ordinal is ≤ the failed one) — but the
`catch` returns `([], [])`, discarding everything accumulated from
earlier pages instead of returning it. -/
theorem c1_failed_fetch_ends_run_empty (limit : Nat) (confirm : Bool)
    (fetchR : Nat → Except Unit Page) (j : Nat)
    (hj : Ev.fetch j ∈ (fetchPosts limit confirm fetchR).2)
    (he : fetchR j = Except.error ()) :
    (fetchPosts limit confirm fetchR).1 = ([], []) ∧
    ∀ i, Ev.fetch i ∈ (fetchPosts limit confirm fetchR).2 → i ≤ j := by
  rw [fetchPosts_trace limit confirm fetchR] at hj ⊢
  obtain ⟨h1, h2⟩ := loopF_error_stops limit confirm fetchR (maxRequests limit)
    (maxRequests limit + 1) [] [] none 0 0 j _ _ rfl hj he
  exact ⟨fetchPosts_result_of_none limit confirm fetchR h1, h2⟩

/-- C1 (witness): the amended theorem at the concrete failing run
`errFetch` with the failure at fetch ordinal 1. -/
theorem c1_witness :
    (fetchPosts 2 true errFetch).1 = ([], []) ∧
    ∀ i, Ev.fetch i ∈ (fetchPosts 2 true errFetch).2 → i ≤ 1 :=
  c1_failed_fetch_ends_run_empty 2 true errFetch 1 (by decide) (by decide)

/-! ## Partition of delivered items (C5) -/

theorem classify_ok_shape (p : Post) (b : Bool) (q : Post)
    (h : classify p = Except.ok (b, q)) :
    q = p ∨ q = { p with url := some (previewUrl p) } := by
  rcases p with ⟨u, pl, t, pv⟩
  cases u with
  | none => simp [classify] at h
  | some s =>
    simp only [classify] at h
    split at h
    · cases h; exact Or.inl rfl
    · split at h
      · cases h; exact Or.inr rfl
      · cases h; exact Or.inl rfl

theorem processPosts_partition (limit : Nat) :
    ∀ (posts media nonMedia M N : List Post),
    processPosts limit media nonMedia posts = Except.ok (M, N) →
    ∃ dm dn, M = media ++ dm ∧ N = nonMedia ++ dn ∧
      dn.Sublist posts ∧
      ∀ p ∈ posts, p ∈ dn ∨ p ∈ dm ∨
        ({ p with url := some (previewUrl p) } : Post) ∈ dm := by
  intro posts
  induction posts with
  | nil =>
    intro media nonMedia M N h
    simp only [processPosts] at h
    cases h
    exact ⟨[], [], by simp, by simp, List.Sublist.refl _, by simp⟩
  | cons p rest ih =>
    intro media nonMedia M N h
    simp only [processPosts] at h
    cases hc : classify p with
    | error e => rw [hc] at h; cases h
    | ok v =>
      obtain ⟨isM, p'⟩ := v
      rw [hc] at h
      dsimp only at h
      rcases routeStep_cases limit media nonMedia p p' isM with
        ⟨he, hlt, hm⟩ | he <;> rw [he] at h
      · split at h
        · cases h
          refine ⟨[p'], rest, rfl, rfl, List.sublist_cons_self p rest, ?_⟩
          intro q hq
          rcases List.mem_cons.mp hq with rfl | hq
          · rcases classify_ok_shape q isM p' hc with rfl | rfl
            · exact Or.inr (Or.inl (by simp))
            · exact Or.inr (Or.inr (by simp))
          · exact Or.inl hq
        · obtain ⟨dm, dn, hM, hN, hsub, hcov⟩ := ih _ _ _ _ h
          refine ⟨p' :: dm, dn, by simp [hM], hN, hsub.cons p, ?_⟩
          intro q hq
          rcases List.mem_cons.mp hq with rfl | hq
          · rcases classify_ok_shape q isM p' hc with rfl | rfl
            · exact Or.inr (Or.inl (by simp))
            · exact Or.inr (Or.inr (by simp))
          · rcases hcov q hq with h1 | h1 | h1
            · exact Or.inl h1
            · exact Or.inr (Or.inl (by simp [h1]))
            · exact Or.inr (Or.inr (by simp [h1]))
      · split at h
        · cases h
          refine ⟨[], p :: rest, by simp, by simp, List.Sublist.refl _, ?_⟩
          intro q hq
          exact Or.inl hq
        · obtain ⟨dm, dn, hM, hN, hsub, hcov⟩ := ih _ _ _ _ h
          refine ⟨dm, p :: dn, hM, by simp [hN], hsub.cons₂ p, ?_⟩
          intro q hq
          rcases List.mem_cons.mp hq with rfl | hq
          · exact Or.inl (List.mem_cons_self _ _)
          · rcases hcov q hq with h1 | h1 | h1
            · exact Or.inl (List.mem_cons_of_mem _ h1)
            · exact Or.inr (Or.inl h1)
            · exact Or.inr (Or.inr h1)

theorem deliveredRange_zero (fetchR : Nat → Except Unit Page) (k : Nat) :
    deliveredRange fetchR k 0 = [] := rfl

theorem deliveredRange_succ_ok (fetchR : Nat → Except Unit Page) (k m : Nat)
    (page : Page) (hf : fetchR k = Except.ok page) :
    deliveredRange fetchR k (m + 1) =
      page.posts ++ deliveredRange fetchR (k + 1) m := by
  unfold deliveredRange
  rw [List.range'_succ]
  simp [hf]

@[simp] theorem numFetches_nil : numFetches [] = 0 := rfl

@[simp] theorem numFetches_cons_fetch (k : Nat) (tr : List Ev) :
    numFetches (Ev.fetch k :: tr) = numFetches tr + 1 := by
  simp [numFetches]

@[simp] theorem numFetches_cons_sleep (tr : List Ev) :
    numFetches (Ev.sleep :: tr) = numFetches tr := by
  simp [numFetches]

@[simp] theorem numFetches_cons_stall (b : Bool) (tr : List Ev) :
    numFetches (Ev.stall b :: tr) = numFetches tr := by
  simp [numFetches]

theorem numFetches_fetch_stallEvs (k : Nat) (c b : Bool) :
    numFetches (Ev.fetch k :: (if c = true then [Ev.stall b] else [])) = 1 := by
  split <;> simp

theorem numFetches_fetch_stall_sleep (k : Nat) (c b : Bool) (tl : List Ev) :
    numFetches (Ev.fetch k ::
      ((if c = true then [Ev.stall b] else []) ++ Ev.sleep :: tl)) =
      numFetches tl + 1 := by
  split <;> simp [numFetches]

theorem loopF_partition (limit : Nat) (confirm : Bool)
    (fetchR : Nat → Except Unit Page) (maxR : Nat) :
    ∀ (fuel : Nat) (media nonMedia : List Post) (after : Option String)
      (rc k : Nat) (M N : List Post) (tr : List Ev),
    loopF limit confirm fetchR maxR fuel media nonMedia after rc k =
      (some (M, N), tr) →
    ∃ dm dn, M = media ++ dm ∧ N = nonMedia ++ dn ∧
      dn.Sublist (deliveredRange fetchR k (numFetches tr)) ∧
      ∀ p ∈ deliveredRange fetchR k (numFetches tr),
        p ∈ dn ∨ p ∈ dm ∨
          ({ p with url := some (previewUrl p) } : Post) ∈ dm := by
  intro fuel
  induction fuel with
  | zero =>
    intro media nonMedia after rc k M N tr h
    simp only [loopF] at h
    cases h
    exact ⟨[], [], by simp, by simp, by simp [deliveredRange_zero],
      by simp [deliveredRange_zero]⟩
  | succ fuel ih =>
    intro media nonMedia after rc k M N tr h
    simp only [loopF] at h
    split at h
    · split at h
      · simp at h
      · rename_i page hf
        split at h
        · rename_i hemp
          cases h
          have hpp : page.posts = [] := List.isEmpty_iff.mp hemp
          refine ⟨[], [], by simp, by simp, ?_, ?_⟩
          · simp [deliveredRange_succ_ok fetchR k 0 page hf, hpp,
              deliveredRange_zero]
          · simp [deliveredRange_succ_ok fetchR k 0 page hf, hpp,
              deliveredRange_zero]
        · split at h
          · simp at h
          · rename_i media' nonMedia' hp
            obtain ⟨dm, dn, hM, hN, hsub, hcov⟩ :=
              processPosts_partition limit page.posts media nonMedia media'
                nonMedia' hp
            split at h
            · cases h
              refine ⟨dm, dn, hM, hN, ?_, ?_⟩
              · simpa [deliveredRange_succ_ok fetchR k 0 page hf,
                  deliveredRange_zero] using hsub
              · simpa [deliveredRange_succ_ok fetchR k 0 page hf,
                  deliveredRange_zero] using hcov
            · split at h
              · cases h
                rw [numFetches_fetch_stallEvs]
                refine ⟨dm, dn, hM, hN, ?_, ?_⟩
                · simpa [deliveredRange_succ_ok fetchR k 0 page hf,
                    deliveredRange_zero] using hsub
                · simpa [deliveredRange_succ_ok fetchR k 0 page hf,
                    deliveredRange_zero] using hcov
              · split at h
                · rcases hr : loopF limit confirm fetchR maxR fuel media'
                    nonMedia' page.after (rc + 1) (k + 1) with ⟨o, tr'⟩
                  rw [hr] at h
                  injection h with h1 h2
                  subst h1
                  obtain ⟨dm', dn', hM', hN', hsub', hcov'⟩ :=
                    ih media' nonMedia' page.after (rc + 1) (k + 1) M N tr' hr
                  rw [← h2, numFetches_fetch_stall_sleep,
                    deliveredRange_succ_ok fetchR k _ page hf]
                  refine ⟨dm ++ dm', dn ++ dn', ?_, ?_, ?_, ?_⟩
                  · rw [hM', hM, List.append_assoc]
                  · rw [hN', hN, List.append_assoc]
                  · exact hsub.append hsub'
                  · intro q hq
                    rcases List.mem_append.mp hq with hq | hq
                    · rcases hcov q hq with h1 | h1 | h1
                      · exact Or.inl (List.mem_append_left _ h1)
                      · exact Or.inr (Or.inl (List.mem_append_left _ h1))
                      · exact Or.inr (Or.inr (List.mem_append_left _ h1))
                    · rcases hcov' q hq with h1 | h1 | h1
                      · exact Or.inl (List.mem_append_right _ h1)
                      · exact Or.inr (Or.inl (List.mem_append_right _ h1))
                      · exact Or.inr (Or.inr (List.mem_append_right _ h1))
                · cases h
                  rw [numFetches_fetch_stallEvs]
                  refine ⟨dm, dn, hM, hN, ?_, ?_⟩
                  · simpa [deliveredRange_succ_ok fetchR k 0 page hf,
                      deliveredRange_zero] using hsub
                  · simpa [deliveredRange_succ_ok fetchR k 0 page hf,
                      deliveredRange_zero] using hcov
    · cases h
      exact ⟨[], [], by simp, by simp, by simp [deliveredRange_zero],
        by simp [deliveredRange_zero]⟩

/-- C5 (counterexample): in the failing run `errFetch`, page 0
delivered `pHtml`, but the run returns both lists empty — a delivered
item absent from the media list is also absent from the non-media
list, because the `catch` discards everything. -/
theorem c5_counterexample :
    (fetchPosts 2 true errFetch).1.1 = [] ∧
    (fetchPosts 2 true errFetch).1.2 = [] ∧
    deliveredRange errFetch 0 (numFetches (fetchPosts 2 true errFetch).2) =
      [pHtml] := by decide

/-- C5 (amended): in every run that returns normally (no fetch error
and no classification exception), every delivered item is accounted
for: the non-media list is a sublist of the delivered items (hence
preserves their arrival order), and each delivered item is in the
non-media list, in the media list, or in the media list with its `url`
overwritten by the resolved preview URL. -/
theorem c5_nonmedia_partition_on_success (limit : Nat) (confirm : Bool)
    (fetchR : Nat → Except Unit Page) (M N : List Post) (tr : List Ev)
    (h : loopF limit confirm fetchR (maxRequests limit) (maxRequests limit + 1)
      [] [] none 0 0 = (some (M, N), tr)) :
    N.Sublist (deliveredRange fetchR 0 (numFetches tr)) ∧
    ∀ p ∈ deliveredRange fetchR 0 (numFetches tr),
      p ∈ N ∨ p ∈ M ∨ ({ p with url := some (previewUrl p) } : Post) ∈ M := by
  obtain ⟨dm, dn, hM, hN, hsub, hcov⟩ :=
    loopF_partition limit confirm fetchR (maxRequests limit)
      (maxRequests limit + 1) [] [] none 0 0 M N tr h
  simp only [List.nil_append] at hM hN
  subst hM
  subst hN
  exact ⟨hsub, hcov⟩

/-- C5 (witness): the amended theorem at a concrete one-page run:
media `[pJpg]`, non-media `[pHtml, pHtml]`, all three delivered items
accounted for in order. -/
theorem c5_witness :
    List.Sublist [pHtml, pHtml]
      (deliveredRange mixFetch 0 (numFetches [Ev.fetch 0])) ∧
    ∀ p ∈ deliveredRange mixFetch 0 (numFetches [Ev.fetch 0]),
      p ∈ [pHtml, pHtml] ∨ p ∈ [pJpg] ∨
        ({ p with url := some (previewUrl p) } : Post) ∈ [pJpg] :=
  c5_nonmedia_partition_on_success 1 true mixFetch [pJpg] [pHtml, pHtml]
    [Ev.fetch 0] (by decide)

/-- C7: when the media list reaches the limit at some item `i` of a
page, processing stops there and the remaining items `i+1 …` of the
page are appended to the non-media list verbatim, in their original
order, without being classified. -/
theorem c7_bulk_append_suffix (limit : Nat) :
    ∀ (posts media nonMedia M N : List Post),
    media.length < limit →
    processPosts limit media nonMedia posts = Except.ok (M, N) →
    limit ≤ M.length →
    ∃ i, i < posts.length ∧ ∃ N1,
      processPosts limit media nonMedia (posts.take (i + 1)) =
        Except.ok (M, N1) ∧
      N = N1 ++ posts.drop (i + 1) := by
  intro posts
  induction posts with
  | nil =>
    intro media nonMedia M N hlt h hM
    simp only [processPosts] at h
    cases h
    omega
  | cons p rest ih =>
    intro media nonMedia M N hlt h hM
    simp only [processPosts] at h
    cases hc : classify p with
    | error e => rw [hc] at h; cases h
    | ok v =>
      obtain ⟨isM, p'⟩ := v
      rw [hc] at h
      dsimp only at h
      split at h
      · rename_i hfull
        cases h
        refine ⟨0, by simp, (routeStep limit media nonMedia p p' isM).2, ?_,
          by simp⟩
        simp only [List.take_succ_cons, List.take_zero, processPosts, hc]
        rw [if_pos hfull]
        simp
      · rename_i hnot
        obtain ⟨i, hi, N1, hp1, hN⟩ := ih _ _ _ _ (by omega) h hM
        refine ⟨i + 1, by simpa using Nat.succ_lt_succ hi, N1, ?_, ?_⟩
        · simp only [List.take_succ_cons, processPosts, hc]
          rw [if_neg hnot]
          exact hp1
        · simpa using hN

/-- C7 (witness): limit 1, a page `[pJpg, pHtml, pHtml]` whose first
item satisfies the limit — the remaining two items are appended
verbatim. -/
theorem c7_witness :
    ∃ i, i < ([pJpg, pHtml, pHtml] : List Post).length ∧ ∃ N1,
      processPosts 1 [] [] (([pJpg, pHtml, pHtml] : List Post).take (i + 1)) =
        Except.ok ([pJpg], N1) ∧
      ([pHtml, pHtml] : List Post) =
        N1 ++ ([pJpg, pHtml, pHtml] : List Post).drop (i + 1) :=
  c7_bulk_append_suffix 1 [pJpg, pHtml, pHtml] [] [] [pJpg] [pHtml, pHtml]
    (by decide) (by decide) (by decide)

/-! ## Rate-limit sleep placement (C9) -/

theorem loopF_trace_head (limit : Nat) (confirm : Bool)
    (fetchR : Nat → Except Unit Page) (maxR : Nat) :
    ∀ (fuel : Nat) (media nonMedia : List Post) (after : Option String)
      (rc k : Nat) (res : Option (List Post × List Post)) (tr : List Ev),
    loopF limit confirm fetchR maxR fuel media nonMedia after rc k = (res, tr) →
    tr = [] ∨ ∃ tl, tr = Ev.fetch k :: tl := by
  intro fuel
  cases fuel with
  | zero =>
    intro media nonMedia after rc k res tr h
    simp only [loopF] at h
    cases h
    exact Or.inl rfl
  | succ fuel =>
    intro media nonMedia after rc k res tr h
    simp only [loopF] at h
    split at h
    · split at h
      · cases h; exact Or.inr ⟨[], rfl⟩
      · split at h
        · cases h; exact Or.inr ⟨[], rfl⟩
        · split at h
          · cases h; exact Or.inr ⟨[], rfl⟩
          · split at h
            · cases h; exact Or.inr ⟨[], rfl⟩
            · split at h
              · cases h; exact Or.inr ⟨_, rfl⟩
              · split at h
                · cases h; exact Or.inr ⟨_, rfl⟩
                · cases h; exact Or.inr ⟨_, rfl⟩
    · cases h; exact Or.inl rfl

theorem loopF_trace_nil (limit : Nat) (confirm : Bool)
    (fetchR : Nat → Except Unit Page) (maxR : Nat) (fuel : Nat)
    (media nonMedia : List Post) (after : Option String) (rc k : Nat)
    (res : Option (List Post × List Post))
    (h : loopF limit confirm fetchR maxR (fuel + 1) media nonMedia after rc k =
      (res, [])) :
    ¬(media.length < limit ∧ rc < maxR) := by
  simp only [loopF] at h
  split at h
  · split at h
    · cases h
    · split at h
      · cases h
      · split at h
        · cases h
        · split at h
          · cases h
          · split at h
            · cases h
            · split at h
              · cases h
              · cases h
  · rename_i hcond
    exact hcond

theorem sleep_not_in_stallEvs (c b : Bool) :
    Ev.sleep ∉ (if c = true then [Ev.stall b] else [] : List Ev) := by
  split <;> simp

theorem sleep_decomp (mid tail : List Ev) (hmid : Ev.sleep ∉ mid) :
    ∀ (pre rest : List Ev),
    pre ++ Ev.sleep :: rest = mid ++ Ev.sleep :: tail →
    (pre = mid ∧ rest = tail) ∨ ∃ q, tail = q ++ Ev.sleep :: rest := by
  induction mid with
  | nil =>
    intro pre rest h
    cases pre with
    | nil =>
      simp only [List.nil_append, List.cons.injEq] at h
      exact Or.inl ⟨rfl, h.2⟩
    | cons a pre' =>
      simp only [List.cons_append, List.nil_append, List.cons.injEq] at h
      exact Or.inr ⟨pre', h.2.symm⟩
  | cons m mid' ih =>
    intro pre rest h
    cases pre with
    | nil =>
      simp only [List.nil_append, List.cons_append, List.cons.injEq] at h
      exact absurd (by rw [h.1]; exact List.mem_cons_self _ _) hmid
    | cons a pre' =>
      simp only [List.cons_append, List.cons.injEq] at h
      obtain ⟨h1, h2⟩ := h
      subst h1
      rcases ih (fun hs => hmid (List.mem_cons_of_mem _ hs)) pre' rest h2 with
        ⟨h3, h4⟩ | h3
      · exact Or.inl ⟨by rw [h3], h4⟩
      · exact Or.inr h3

/-- every sleep in the trace is either followed immediately by another
page fetch, or it is the final event of a run whose number of fetches
equals the full budget. -/
theorem loopF_sleep_spec (limit : Nat) (confirm : Bool)
    (fetchR : Nat → Except Unit Page) (maxR : Nat) :
    ∀ (fuel : Nat) (media nonMedia : List Post) (after : Option String)
      (rc k : Nat) (res : Option (List Post × List Post)) (tr : List Ev)
      (pre rest : List Ev),
    maxR ≤ rc + fuel →
    loopF limit confirm fetchR maxR fuel media nonMedia after rc k = (res, tr) →
    tr = pre ++ Ev.sleep :: rest →
    (∃ j tl, rest = Ev.fetch j :: tl) ∨
    (rest = [] ∧ rc + numFetches tr = maxR) := by
  intro fuel
  induction fuel with
  | zero =>
    intro media nonMedia after rc k res tr pre rest hfuel h htr
    simp only [loopF] at h
    cases h
    exact absurd htr (by simp)
  | succ fuel ih =>
    intro media nonMedia after rc k res tr pre rest hfuel h htr
    simp only [loopF] at h
    split at h
    · rename_i hcond
      split at h
      · cases h
        exfalso
        have hs : Ev.sleep ∈ pre ++ Ev.sleep :: rest :=
          List.mem_append_right pre (List.mem_cons_self _ _)
        rw [← htr] at hs
        simp at hs
      · rename_i page hf
        split at h
        · cases h
          exfalso
          have hs : Ev.sleep ∈ pre ++ Ev.sleep :: rest :=
            List.mem_append_right pre (List.mem_cons_self _ _)
          rw [← htr] at hs
          simp at hs
        · split at h
          · cases h
            exfalso
            have hs : Ev.sleep ∈ pre ++ Ev.sleep :: rest :=
              List.mem_append_right pre (List.mem_cons_self _ _)
            rw [← htr] at hs
            simp at hs
          · rename_i media' nonMedia' hp
            split at h
            · cases h
              exfalso
              have hs : Ev.sleep ∈ pre ++ Ev.sleep :: rest :=
                List.mem_append_right pre (List.mem_cons_self _ _)
              rw [← htr] at hs
              simp at hs
            · split at h
              · cases h
                exfalso
                have hs : Ev.sleep ∈ pre ++ Ev.sleep :: rest :=
                  List.mem_append_right pre (List.mem_cons_self _ _)
                rw [← htr] at hs
                rcases List.mem_cons.mp hs with hs | hs
                · cases hs
                · exact sleep_not_in_stallEvs _ confirm hs
              · split at h
                · rename_i hnot hcursor
                  rcases hr : loopF limit confirm fetchR maxR fuel media'
                    nonMedia' page.after (rc + 1) (k + 1) with ⟨ro, rtr⟩
                  rw [hr] at h
                  injection h with h1 h2
                  dsimp only at h1 h2
                  subst h1
                  rw [← h2] at htr
                  cases pre with
                  | nil => simp at htr
                  | cons a pre' =>
                    simp only [List.cons_append, List.cons.injEq] at htr
                    obtain ⟨ha, htl⟩ := htr
                    rcases sleep_decomp _ rtr
                      (sleep_not_in_stallEvs
                        (limit == 1 && rc == 2 && media'.length == 0) confirm)
                      pre' rest htl.symm with ⟨hpre, hrest⟩ | ⟨q, hq⟩
                    · rcases loopF_trace_head limit confirm fetchR maxR fuel
                        media' nonMedia' page.after (rc + 1) (k + 1) ro rtr hr
                        with hnil | ⟨tl, hhd⟩
                      · refine Or.inr ⟨by rw [hrest, hnil], ?_⟩
                        rw [← h2, numFetches_fetch_stall_sleep, hnil]
                        simp only [numFetches_nil]
                        cases fuel with
                        | zero => omega
                        | succ fuel' =>
                          have hstop := loopF_trace_nil limit confirm fetchR
                            maxR fuel' media' nonMedia' page.after (rc + 1)
                            (k + 1) ro (by rw [hr, hnil])
                          have hml : media'.length < limit := by omega
                          have hge : ¬(rc + 1 < maxR) := fun hlt =>
                            hstop ⟨hml, hlt⟩
                          omega
                      · exact Or.inl ⟨k + 1, tl, by rw [hrest, hhd]⟩
                    · obtain hlft | ⟨hrest, hcount⟩ := ih media' nonMedia'
                        page.after (rc + 1) (k + 1) ro rtr q rest
                        (by omega) hr hq
                      · exact Or.inl hlft
                      · refine Or.inr ⟨hrest, ?_⟩
                        rw [← h2, numFetches_fetch_stall_sleep]
                        omega
                · cases h
                  exfalso
                  have hs : Ev.sleep ∈ pre ++ Ev.sleep :: rest :=
                    List.mem_append_right pre (List.mem_cons_self _ _)
                  rw [← htr] at hs
                  rcases List.mem_cons.mp hs with hs | hs
                  · cases hs
                  · exact sleep_not_in_stallEvs _ confirm hs
    · cases h
      exact absurd htr (by simp)

/-- C9 (counterexample): limit 2 (budget 6), every page delivers one
non-media item and a live cursor — the trace ends with a sleep after
the 6th and final page fetch: the 1000 ms sleep is performed although
no further iteration occurs. -/
theorem c9_counterexample :
    ((fetchPosts 2 true liveFetch).2).getLast? = some Ev.sleep ∧
    numFetches (fetchPosts 2 true liveFetch).2 = 6 := by decide

/-- C9 (amended): every 1000 ms sleep in a run's trace is immediately
followed by another page fetch, except that a sleep is also performed
as the final action when the loop exits because the request budget was
exhausted with a live cursor (the sleep of line 131 runs before the
loop condition is re-checked). -/
theorem c9_sleep_followed_or_budget (limit : Nat) (confirm : Bool)
    (fetchR : Nat → Except Unit Page) (pre rest : List Ev)
    (h : (fetchPosts limit confirm fetchR).2 = pre ++ Ev.sleep :: rest) :
    (∃ j tl, rest = Ev.fetch j :: tl) ∨
    (rest = [] ∧
      numFetches (fetchPosts limit confirm fetchR).2 = maxRequests limit) := by
  rw [fetchPosts_trace limit confirm fetchR] at h ⊢
  rcases hl : loopF limit confirm fetchR (maxRequests limit)
    (maxRequests limit + 1) [] [] none 0 0 with ⟨res, tr⟩
  rw [hl] at h
  have hsp := loopF_sleep_spec limit confirm fetchR (maxRequests limit)
    (maxRequests limit + 1) [] [] none 0 0 res tr pre rest (by omega) hl h
  simpa using hsp

/-- C9 (witness): the amended theorem at the concrete budget-exhausting
run, for the sleep following fetch 0: it is followed by fetch 1. -/
theorem c9_witness :
    (∃ j tl, ([Ev.fetch 1, Ev.sleep, Ev.fetch 2, Ev.sleep, Ev.fetch 3,
      Ev.sleep, Ev.fetch 4, Ev.sleep, Ev.fetch 5, Ev.sleep] : List Ev) =
      Ev.fetch j :: tl) ∨
    (([Ev.fetch 1, Ev.sleep, Ev.fetch 2, Ev.sleep, Ev.fetch 3, Ev.sleep,
      Ev.fetch 4, Ev.sleep, Ev.fetch 5, Ev.sleep] : List Ev) = [] ∧
      numFetches (fetchPosts 2 true liveFetch).2 = maxRequests 2) :=
  c9_sleep_followed_or_budget 2 true liveFetch [Ev.fetch 0]
    [Ev.fetch 1, Ev.sleep, Ev.fetch 2, Ev.sleep, Ev.fetch 3, Ev.sleep,
      Ev.fetch 4, Ev.sleep, Ev.fetch 5, Ev.sleep] (by decide)
